import Mathlib

/-!
# Verification of `dcc.py` (DCC packet generation)

Shallow embedding of the `DCCGen` class of `src/dcc.py`, a MicroPython
module that builds NMRA DCC command packets and feeds them, as 32-bit
control words, to a PIO state machine.

Modelling conventions:

* Python integers at the command interface are `Int` (callers may pass
  negative values, and `REV = -1`); validated byte and word values are
  `Nat`.
* A `bytearray` is a `List Nat` of byte values.
* The dict `self._packet_list` is an insertion-ordered association list
  with (by construction) unique keys: Python dict lookup, in-place update
  of an existing key, and insertion of a fresh key at the end.
* The dict iterator `self._packet_iter` is the list of keys not yet
  consumed by `next`.  This models Python dict iteration in the absence of
  mutation of the dict while an iterator is live (the only regime in which
  Python defines its behaviour).
* A raised exception (`raise RuntimeError`, `KeyError`, `StopIteration`
  escaping) is `Except.error` with the message; an `Except.ok` result of
  `_send_packet` is the list of words the code writes into
  `self._FIFO_buff` and transfers to the PIO FIFO with `self._sm.put`.
-/

/-- The command class half of a `_packet_list` key: the Python code uses
the string tags `'S'` (speed/direction) and `'F'` (function group 1). -/
inductive CmdClass
| S
| F
deriving DecidableEq

/-- A `_packet_list` key: `('S', address)` or `('F', address)`. -/
abbrev Key : Type := CmdClass × Int

/-- A `bytearray` of packet bytes. -/
abbrev ByteList := List Nat

/-- `self._packet_list`: insertion-ordered association list with unique
keys, modelling the Python dict. -/
abbrev Registry := List (Key × ByteList)

/-- `_MAX_LONG_ADDR = const(0x27FF)` — long address upper limit. -/
def _MAX_LONG_ADDR : Int := 0x27FF

/-- `_MIN_LONG_ADDR = const(128)` — long address lower limit. -/
def _MIN_LONG_ADDR : Int := 128

/-- `_SPD_128 = const(0x3f)` — 1st instruction byte for 128-step speed. -/
def _SPD_128 : Nat := 0x3f

/-- `_F_GROUP_1 = const(0x80)` — instruction byte for function group 1. -/
def _F_GROUP_1 : Nat := 0x80

/-- `_F_NUM_ENCODE = [0x10, 0x01, 0x02, 0x04, 0x08]` — function number to
mask. -/
def _F_NUM_ENCODE : List Nat := [0x10, 0x01, 0x02, 0x04, 0x08]

/-- `_DCC_PREAMBLE = const(0x8000ffff)` — 16 one bits, top bit marks a
preamble/padding word. -/
def _DCC_PREAMBLE : Nat := 0x8000ffff

/-- `_DCC_PADDING = const(0x80000000)` — 16 zero bits. -/
def _DCC_PADDING : Nat := 0x80000000

/-- `_DCC_LAST_BYTE = const(0x40000000)` — last-byte marker bit (bit 30). -/
def _DCC_LAST_BYTE : Nat := 0x40000000

/-- `DCCGen.IDLE_PACKET = bytes(b'\xff\x00')`. -/
def IDLE_PACKET : ByteList := [0xff, 0x00]

/-- `DCCGen.FWD = const(1)`. -/
def FWD : Int := 1

/-- `DCCGen.REV = const(-1)`. -/
def REV : Int := -1

/-- Python dict lookup `reg[k]`, as an `Option` (a `KeyError` is `none`). -/
def lookup : Registry → Key → Option ByteList
| [], _ => none
| p :: rest, k => if p.1 = k then some p.2 else lookup rest k

/-- In-place mutation of the value stored under key `k` (Python mutates
the `bytearray` object held in the dict, so order and keys are unchanged). -/
def updateEntry (reg : Registry) (k : Key) (f : ByteList → ByteList) : Registry :=
  reg.map fun p => if p.1 = k then (p.1, f p.2) else p

/-- Python `ba[-1] = v` on a (non-empty) bytearray: replace the last byte. -/
def setLast (l : ByteList) (v : Nat) : ByteList := l.dropLast ++ [v]

/-- Python `x & ~m` for non-negative `x`, `m`.  Python `~m` is the
two's-complement `-m-1`, so `x & ~m` keeps exactly the bits of `x` that
are not set in `m`; `x &&& (x ^^^ m)` computes that bit pattern (see
`testBit_andNot`) while staying kernel-computable. -/
def andNot (x m : Nat) : Nat := x &&& (x ^^^ m)

/-- `DCCGen.set_speed(address, dir, speed = 0)`: validate, then patch the
last byte of an existing `('S', address)` entry or insert a freshly framed
one.  Returns the Python `bool` result together with the new registry. -/
def set_speed (reg : Registry) (address dir speed : Int) : Bool × Registry :=
  if address < 1 ∨ address > _MAX_LONG_ADDR then (false, reg)
  else if speed < 0 ∨ speed > 127 then (false, reg)
  else if ¬(dir = FWD ∨ dir = REV) then (false, reg)
  else
    let inst_2 : Nat := (if dir = FWD then 0x80 else 0) ||| (speed.toNat &&& 0x7f)
    match lookup reg (CmdClass.S, address) with
    | some _ =>
      -- modify instruction byte 2 (the last byte) with new dir/speed
      (true, updateEntry reg (CmdClass.S, address) fun e => setLast e inst_2)
    | none =>
      if address < _MIN_LONG_ADDR then
        -- short address - 1 byte, instruction 1, instruction 2
        (true, reg ++ [((CmdClass.S, address), [address.toNat, _SPD_128, inst_2])])
      else
        -- long address - 2 bytes, instruction 1, instruction 2
        let msb_address : Nat := (0xc000 ||| address.toNat) >>> 8
        (true, reg ++ [((CmdClass.S, address),
          [msb_address, address.toNat &&& 0xff, _SPD_128, inst_2])])

/-- `DCCGen.set_fg1(address, f_num, state)`: validate, then set or clear
the function bit in the last byte of an existing `('F', address)` entry,
or insert a fresh entry with only the requested bit. -/
def set_fg1 (reg : Registry) (address f_num state : Int) : Bool × Registry :=
  if address < 1 ∨ address > _MAX_LONG_ADDR then (false, reg)
  else if f_num < 0 ∨ f_num > 4 then (false, reg)
  else if ¬(state = 0 ∨ state = 1) then (false, reg)
  else
    let mask : Nat := _F_NUM_ENCODE.getD f_num.toNat 0
    match lookup reg (CmdClass.F, address) with
    | some e =>
      -- get current instruction byte (it's at the end), set or clear bit
      let inst_1 := e.getLastD 0
      (true, updateEntry reg (CmdClass.F, address) fun e2 =>
        setLast e2 (if state = 1 then inst_1 ||| mask else andNot inst_1 mask))
    | none =>
      -- new entry - no current bits to retain
      let inst_1 := _F_GROUP_1 ||| (if state = 1 then mask else 0)
      if address < _MIN_LONG_ADDR then
        (true, reg ++ [((CmdClass.F, address), [address.toNat, inst_1])])
      else
        let msb_address : Nat := (0xc000 ||| address.toNat) >>> 8
        (true, reg ++ [((CmdClass.F, address),
          [msb_address, address.toNat &&& 0xff, inst_1])])

/-- The running checksum `err_detect`: XOR-fold of the packet bytes. -/
def xorFold (l : ByteList) : Nat := l.foldl (fun a b => a ^^^ b) 0

/-- The word sequence `_send_packet` writes into the FIFO buffer for a
byte list that passes the length check: preamble word, one word per byte,
then the checksum word tagged with the last-byte marker. -/
def packetWords (byte_list : ByteList) : List Nat :=
  _DCC_PREAMBLE :: byte_list ++ [xorFold byte_list ||| _DCC_LAST_BYTE]

/-- `DCCGen._send_packet(byte_list)`: raise `RuntimeError` if more than 5
bytes, else fill the FIFO buffer and transfer `byte_count + 2` words to
the PIO.  The `ok` value is the transferred word list. -/
def _send_packet (byte_list : ByteList) : Except String (List Nat) :=
  if byte_list.length > 5 then .error "DCC command too long"
  else .ok (packetWords byte_list)

/-- The mutable state the scheduler callback touches: the packet dict and
the live dict iterator (remaining keys). -/
structure DCCState where
  packet_list : Registry
  packet_iter : List Key
deriving DecidableEq

/-- The power-on steps of `DCCGen.power` that matter to packet selection:
`self._packet_iter = iter(self._packet_list)` — a fresh iterator over the
whole key sequence. -/
def power_on (reg : Registry) : DCCState :=
  { packet_list := reg, packet_iter := reg.map Prod.fst }

/-- `DCCGen._nxt_packet`: timer callback.  Empty dict sends the idle
packet; otherwise `next` the iterator (renewing it on `StopIteration`) and
send that key's entry.  `Except.error` models an uncaught exception. -/
def _nxt_packet (s : DCCState) : Except String (List Nat × DCCState) :=
  if s.packet_list.length = 0 then
    match _send_packet IDLE_PACKET with
    | .ok ws => .ok (ws, s)
    | .error e => .error e
  else
    match s.packet_iter with
    | packet_key :: rest =>
      match lookup s.packet_list packet_key with
      | some e =>
        match _send_packet e with
        | .ok ws => .ok (ws, { s with packet_iter := rest })
        | .error err => .error err
      | none => .error "KeyError"
    | [] =>
      -- StopIteration: renew the iterator and take its first key
      match s.packet_list.map Prod.fst with
      | packet_key :: rest =>
        match lookup s.packet_list packet_key with
        | some e =>
          match _send_packet e with
          | .ok ws => .ok (ws, { s with packet_iter := rest })
          | .error err => .error err
        | none => .error "KeyError"
      | [] => .error "StopIteration"

/-- Run `n` consecutive timer callbacks, collecting the word list each
tick transfers to the PIO. -/
def runTicks : Nat → DCCState → Except String (List (List Nat) × DCCState)
| 0, s => .ok ([], s)
| n + 1, s =>
  match _nxt_packet s with
  | .ok (ws, s1) =>
    match runTicks n s1 with
    | .ok (sends, s2) => .ok (ws :: sends, s2)
    | .error e => .error e
  | .error e => .error e

/-- Registry states reachable from the freshly constructed generator
(`self._packet_list = {}`) through the public mutators. -/
inductive Reachable : Registry → Prop
| init : Reachable []
| speed (r : Registry) (a d sp : Int) : Reachable r → Reachable (set_speed r a d sp).2
| fg1 (r : Registry) (a f st : Int) : Reachable r → Reachable (set_fg1 r a f st).2

/-! ## Bit-level helper lemmas -/

theorem testBit_andNot (x m i : Nat) :
    (andNot x m).testBit i = (x.testBit i && !(m.testBit i)) := by
  simp only [andNot, Nat.testBit_land, Nat.testBit_xor]
  cases x.testBit i <;> cases m.testBit i <;> rfl

theorem lor_shiftRight (x y n : Nat) :
    (x ||| y) >>> n = (x >>> n) ||| (y >>> n) := by
  apply Nat.eq_of_testBit_eq
  intro i
  simp [Nat.testBit_lor, Nat.testBit_shiftRight]

theorem msb_address_eq (n : Nat) : (0xc000 ||| n) >>> 8 = 0xc0 ||| (n >>> 8) := by
  have h : (0xc000 : Nat) >>> 8 = 0xc0 := by decide
  rw [lor_shiftRight, h]

theorem andNot_lor_self (v m : Nat) : andNot (v ||| m) m = andNot v m := by
  apply Nat.eq_of_testBit_eq
  intro i
  simp only [testBit_andNot, Nat.testBit_lor]
  cases v.testBit i <;> cases m.testBit i <;> rfl

theorem andNot_eq_self (v m : Nat) (h : v &&& m = 0) : andNot v m = v := by
  apply Nat.eq_of_testBit_eq
  intro i
  have h2 : (v.testBit i && m.testBit i) = false := by
    rw [← Nat.testBit_land, h]
    simp
  simp only [testBit_andNot]
  cases hm : m.testBit i <;> cases hv : v.testBit i <;> simp_all

set_option maxRecDepth 8192 in
theorem or_marker_facts (x : Nat) (hx : x < 256) :
    ((x ||| 0x40000000) &&& 0xff = x) ∧ ((x ||| 0x40000000) &&& 0x40000000 ≠ 0) ∧
      (x &&& 0x40000000 = 0) := by
  have h : ∀ y : Fin 256, (((y : Nat) ||| 0x40000000) &&& 0xff = (y : Nat)) ∧
      (((y : Nat) ||| 0x40000000) &&& 0x40000000 ≠ 0) ∧ ((y : Nat) &&& 0x40000000 = 0) := by
    decide
  exact h ⟨x, hx⟩

theorem xorFold_acc_lt (l : ByteList) : ∀ acc : Nat, acc < 256 → (∀ b ∈ l, b < 256) →
    l.foldl (fun a b => a ^^^ b) acc < 256 := by
  induction l with
  | nil => intro acc hacc _; simpa using hacc
  | cons b t ih =>
    intro acc hacc hl
    simp only [List.foldl_cons]
    have hb : b < 256 := hl b (by simp)
    have hx : acc ^^^ b < 2 ^ 8 :=
      Nat.xor_lt_two_pow (n := 8) (by simpa using hacc) (by simpa using hb)
    exact ih (acc ^^^ b) (by simpa using hx) (fun x hx2 => hl x (by simp [hx2]))

theorem xorFold_lt (l : ByteList) (hl : ∀ b ∈ l, b < 256) : xorFold l < 256 :=
  xorFold_acc_lt l 0 (by norm_num) hl

/-! ## Association-list (Python dict) helper lemmas -/

theorem lookup_cons (p : Key × ByteList) (rest : Registry) (k : Key) :
    lookup (p :: rest) k = if p.1 = k then some p.2 else lookup rest k := rfl

theorem updateEntry_cons (p : Key × ByteList) (rest : Registry) (k : Key)
    (f : ByteList → ByteList) :
    updateEntry (p :: rest) k f =
      (if p.1 = k then (p.1, f p.2) else p) :: updateEntry rest k f := rfl

theorem lookup_append_of_none {reg : Registry} {k : Key} (h : lookup reg k = none)
    (v : ByteList) : lookup (reg ++ [(k, v)]) k = some v := by
  induction reg with
  | nil => simp [lookup_cons, lookup]
  | cons p rest ih =>
    rw [lookup_cons] at h
    by_cases hp : p.1 = k
    · rw [if_pos hp] at h
      simp at h
    · rw [if_neg hp] at h
      rw [List.cons_append, lookup_cons, if_neg hp]
      exact ih h

theorem lookup_updateEntry_self {reg : Registry} {k : Key} {e : ByteList}
    (h : lookup reg k = some e) (f : ByteList → ByteList) :
    lookup (updateEntry reg k f) k = some (f e) := by
  induction reg with
  | nil => simp [lookup] at h
  | cons p rest ih =>
    rw [lookup_cons] at h
    rw [updateEntry_cons]
    by_cases hp : p.1 = k
    · rw [if_pos hp] at h
      rw [if_pos hp, lookup_cons]
      simp only [Option.some.injEq] at h
      simp [hp, h]
    · rw [if_neg hp] at h
      rw [if_neg hp, lookup_cons, if_neg hp]
      exact ih h

theorem lookup_updateEntry_ne {reg : Registry} {k k2 : Key} (h : k2 ≠ k)
    (f : ByteList → ByteList) : lookup (updateEntry reg k f) k2 = lookup reg k2 := by
  induction reg with
  | nil => rfl
  | cons p rest ih =>
    rw [updateEntry_cons, lookup_cons, lookup_cons]
    by_cases hp : p.1 = k
    · have hp2 : ¬(p.1 = k2) := fun he => h ((he ▸ hp : k2 = k))
      rw [if_pos hp, if_neg hp2]
      have hk2 : ¬((p.1, f p.2).1 = k2) := hp2
      rw [if_neg hk2]
      exact ih
    · rw [if_neg hp]
      by_cases hp2 : p.1 = k2
      · rw [if_pos hp2, if_pos hp2]
      · rw [if_neg hp2, if_neg hp2]
        exact ih

theorem updateEntry_keys (reg : Registry) (k : Key) (f : ByteList → ByteList) :
    (updateEntry reg k f).map Prod.fst = reg.map Prod.fst := by
  induction reg with
  | nil => rfl
  | cons p rest ih =>
    rw [updateEntry_cons, List.map_cons, List.map_cons, ih]
    by_cases hp : p.1 = k
    · rw [if_pos hp]
    · rw [if_neg hp]

theorem mem_keys_of_lookup {reg : Registry} {k : Key} {e : ByteList}
    (h : lookup reg k = some e) : k ∈ reg.map Prod.fst := by
  induction reg with
  | nil => simp [lookup] at h
  | cons p rest ih =>
    rw [lookup_cons] at h
    by_cases hp : p.1 = k
    · simp [hp]
    · rw [if_neg hp] at h
      simp [ih h]

theorem lookup_mem {reg : Registry} {k : Key} {e : ByteList}
    (h : lookup reg k = some e) : (k, e) ∈ reg := by
  induction reg with
  | nil => simp [lookup] at h
  | cons p rest ih =>
    rw [lookup_cons] at h
    by_cases hp : p.1 = k
    · rw [if_pos hp] at h
      simp only [Option.some.injEq] at h
      have hpe : (k, e) = p := by
        rw [← hp, ← h]
      rw [hpe]
      exact List.mem_cons_self p rest
    · rw [if_neg hp] at h
      exact List.mem_cons_of_mem p (ih h)

theorem lookup_of_mem_nodup {reg : Registry} (hnd : (reg.map Prod.fst).Nodup)
    {p : Key × ByteList} (hp : p ∈ reg) : lookup reg p.1 = some p.2 := by
  induction reg with
  | nil => cases hp
  | cons q rest ih =>
    rw [List.map_cons] at hnd
    rcases List.nodup_cons.mp hnd with ⟨hq, ht⟩
    rcases List.mem_cons.mp hp with rfl | hp2
    · rw [lookup_cons, if_pos rfl]
    · have hne : ¬(q.1 = p.1) := fun he => hq (he ▸ List.mem_map_of_mem Prod.fst hp2)
      rw [lookup_cons, if_neg hne]
      exact ih ht hp2

theorem countP_eq_one_of_nodup {l : List Key} (hnd : l.Nodup) {k : Key} (hk : k ∈ l) :
    l.countP (fun x => decide (x = k)) = 1 := by
  induction l with
  | nil => cases hk
  | cons q t ih =>
    rcases List.nodup_cons.mp hnd with ⟨hq, ht⟩
    rcases List.mem_cons.mp hk with rfl | hk2
    · rw [List.countP_cons]
      have hz : t.countP (fun x => decide (x = k)) = 0 := by
        rw [List.countP_eq_zero]
        intro x hx h2
        rw [decide_eq_true_eq] at h2
        exact hq (h2 ▸ hx)
      simp [hz]
    · rw [List.countP_cons]
      have hqk : ¬(q = k) := fun he => hq (he ▸ hk2)
      simp [ih ht hk2, hqk]

/-! ## Branch reduction lemmas for the mutators -/

theorem set_speed_update (reg : Registry) (a d sp : Int) (e : ByteList)
    (h1 : ¬(a < 1 ∨ a > _MAX_LONG_ADDR)) (h2 : ¬(sp < 0 ∨ sp > 127))
    (h3 : d = FWD ∨ d = REV) (hl : lookup reg (CmdClass.S, a) = some e) :
    set_speed reg a d sp = (true, updateEntry reg (CmdClass.S, a)
      (fun e2 => setLast e2 ((if d = FWD then 0x80 else 0) ||| (sp.toNat &&& 0x7f)))) := by
  unfold set_speed
  rw [if_neg h1, if_neg h2, if_neg (not_not_intro h3)]
  simp only [hl]

theorem set_speed_insert_short (reg : Registry) (a d sp : Int)
    (h1 : ¬(a < 1 ∨ a > _MAX_LONG_ADDR)) (h2 : ¬(sp < 0 ∨ sp > 127))
    (h3 : d = FWD ∨ d = REV) (hl : lookup reg (CmdClass.S, a) = none)
    (h4 : a < _MIN_LONG_ADDR) :
    set_speed reg a d sp = (true, reg ++ [((CmdClass.S, a),
      [a.toNat, _SPD_128, (if d = FWD then 0x80 else 0) ||| (sp.toNat &&& 0x7f)])]) := by
  unfold set_speed
  rw [if_neg h1, if_neg h2, if_neg (not_not_intro h3)]
  simp only [hl]
  rw [if_pos h4]

theorem set_speed_insert_long (reg : Registry) (a d sp : Int)
    (h1 : ¬(a < 1 ∨ a > _MAX_LONG_ADDR)) (h2 : ¬(sp < 0 ∨ sp > 127))
    (h3 : d = FWD ∨ d = REV) (hl : lookup reg (CmdClass.S, a) = none)
    (h4 : ¬(a < _MIN_LONG_ADDR)) :
    set_speed reg a d sp = (true, reg ++ [((CmdClass.S, a),
      [(0xc000 ||| a.toNat) >>> 8, a.toNat &&& 0xff, _SPD_128,
        (if d = FWD then 0x80 else 0) ||| (sp.toNat &&& 0x7f)])]) := by
  unfold set_speed
  rw [if_neg h1, if_neg h2, if_neg (not_not_intro h3)]
  simp only [hl]
  rw [if_neg h4]

theorem set_fg1_update (reg : Registry) (a f st : Int) (e : ByteList)
    (h1 : ¬(a < 1 ∨ a > _MAX_LONG_ADDR)) (h2 : ¬(f < 0 ∨ f > 4))
    (h3 : st = 0 ∨ st = 1) (hl : lookup reg (CmdClass.F, a) = some e) :
    set_fg1 reg a f st = (true, updateEntry reg (CmdClass.F, a)
      (fun e2 => setLast e2 (if st = 1 then e.getLastD 0 ||| _F_NUM_ENCODE.getD f.toNat 0
        else andNot (e.getLastD 0) (_F_NUM_ENCODE.getD f.toNat 0)))) := by
  unfold set_fg1
  rw [if_neg h1, if_neg h2, if_neg (not_not_intro h3)]
  simp only [hl]

theorem set_fg1_insert_short (reg : Registry) (a f st : Int)
    (h1 : ¬(a < 1 ∨ a > _MAX_LONG_ADDR)) (h2 : ¬(f < 0 ∨ f > 4))
    (h3 : st = 0 ∨ st = 1) (hl : lookup reg (CmdClass.F, a) = none)
    (h4 : a < _MIN_LONG_ADDR) :
    set_fg1 reg a f st = (true, reg ++ [((CmdClass.F, a),
      [a.toNat, _F_GROUP_1 ||| (if st = 1 then _F_NUM_ENCODE.getD f.toNat 0 else 0)])]) := by
  unfold set_fg1
  rw [if_neg h1, if_neg h2, if_neg (not_not_intro h3)]
  simp only [hl]
  rw [if_pos h4]

theorem set_fg1_insert_long (reg : Registry) (a f st : Int)
    (h1 : ¬(a < 1 ∨ a > _MAX_LONG_ADDR)) (h2 : ¬(f < 0 ∨ f > 4))
    (h3 : st = 0 ∨ st = 1) (hl : lookup reg (CmdClass.F, a) = none)
    (h4 : ¬(a < _MIN_LONG_ADDR)) :
    set_fg1 reg a f st = (true, reg ++ [((CmdClass.F, a),
      [(0xc000 ||| a.toNat) >>> 8, a.toNat &&& 0xff,
        _F_GROUP_1 ||| (if st = 1 then _F_NUM_ENCODE.getD f.toNat 0 else 0)])]) := by
  unfold set_fg1
  rw [if_neg h1, if_neg h2, if_neg (not_not_intro h3)]
  simp only [hl]
  rw [if_neg h4]

/-! ## Registry invariant: shape of reachable entries -/

theorem setLast_ne_nil (l : ByteList) (v : Nat) : setLast l v ≠ [] := by
  simp [setLast]

theorem setLast_length (l : ByteList) (v : Nat) (h : l ≠ []) :
    (setLast l v).length = l.length := by
  have hl : 0 < l.length := List.length_pos.mpr h
  simp only [setLast, List.length_append, List.length_dropLast, List.length_singleton]
  omega

/-- Shape invariant of a registry entry: non-empty, and its length is
fixed by its command class and address range. -/
def EntryOK (p : Key × ByteList) : Prop :=
  p.2 ≠ [] ∧
  (p.1.1 = CmdClass.S → p.2.length = if p.1.2 < _MIN_LONG_ADDR then 3 else 4) ∧
  (p.1.1 = CmdClass.F → p.2.length = if p.1.2 < _MIN_LONG_ADDR then 2 else 3)

/-- Every entry of the registry satisfies the shape invariant. -/
def RegInv (reg : Registry) : Prop := ∀ p ∈ reg, EntryOK p

theorem EntryOK_bounds {p : Key × ByteList} (h : EntryOK p) :
    2 ≤ p.2.length ∧ p.2.length ≤ 4 := by
  obtain ⟨h0, hS, hF⟩ := h
  cases hc : p.1.1 with
  | S => rw [hS hc]; split_ifs <;> omega
  | F => rw [hF hc]; split_ifs <;> omega

theorem RegInv_updateEntry {reg : Registry} (h : RegInv reg) (k : Key) (v : Nat) :
    RegInv (updateEntry reg k (fun e => setLast e v)) := by
  intro p hp
  rcases List.mem_map.mp hp with ⟨q, hq, hqe⟩
  have hOK := h q hq
  by_cases hk : q.1 = k
  · rw [if_pos hk] at hqe
    obtain ⟨h0, hS, hF⟩ := hOK
    refine hqe ▸ ⟨setLast_ne_nil q.2 v, ?_, ?_⟩ <;> intro hc <;>
      simp only [setLast_length q.2 v h0]
    · exact hS hc
    · exact hF hc
  · rw [if_neg hk] at hqe
    exact hqe ▸ hOK

theorem RegInv_set_speed (reg : Registry) (a d sp : Int) (h : RegInv reg) :
    RegInv (set_speed reg a d sp).2 := by
  by_cases h1 : a < 1 ∨ a > _MAX_LONG_ADDR
  · unfold set_speed; rw [if_pos h1]; exact h
  by_cases h2 : sp < 0 ∨ sp > 127
  · unfold set_speed; rw [if_neg h1, if_pos h2]; exact h
  by_cases h3 : d = FWD ∨ d = REV
  swap
  · unfold set_speed; rw [if_neg h1, if_neg h2, if_pos h3]; exact h
  rcases hl : lookup reg (CmdClass.S, a) with _ | e
  · by_cases h4 : a < _MIN_LONG_ADDR
    · rw [set_speed_insert_short reg a d sp h1 h2 h3 hl h4]
      intro p hp
      rcases List.mem_append.mp hp with hp1 | hp2
      · exact h p hp1
      · rw [List.mem_singleton.mp hp2]
        refine ⟨by simp, ?_, ?_⟩ <;> intro hc
        · simp [if_pos h4]
        · cases hc
    · rw [set_speed_insert_long reg a d sp h1 h2 h3 hl h4]
      intro p hp
      rcases List.mem_append.mp hp with hp1 | hp2
      · exact h p hp1
      · rw [List.mem_singleton.mp hp2]
        refine ⟨by simp, ?_, ?_⟩ <;> intro hc
        · simp [if_neg h4]
        · cases hc
  · rw [set_speed_update reg a d sp e h1 h2 h3 hl]
    exact RegInv_updateEntry h _ _

theorem RegInv_set_fg1 (reg : Registry) (a f st : Int) (h : RegInv reg) :
    RegInv (set_fg1 reg a f st).2 := by
  by_cases h1 : a < 1 ∨ a > _MAX_LONG_ADDR
  · unfold set_fg1; rw [if_pos h1]; exact h
  by_cases h2 : f < 0 ∨ f > 4
  · unfold set_fg1; rw [if_neg h1, if_pos h2]; exact h
  by_cases h3 : st = 0 ∨ st = 1
  swap
  · unfold set_fg1; rw [if_neg h1, if_neg h2, if_pos h3]; exact h
  rcases hl : lookup reg (CmdClass.F, a) with _ | e
  · by_cases h4 : a < _MIN_LONG_ADDR
    · rw [set_fg1_insert_short reg a f st h1 h2 h3 hl h4]
      intro p hp
      rcases List.mem_append.mp hp with hp1 | hp2
      · exact h p hp1
      · rw [List.mem_singleton.mp hp2]
        refine ⟨by simp, ?_, ?_⟩ <;> intro hc
        · cases hc
        · simp [if_pos h4]
    · rw [set_fg1_insert_long reg a f st h1 h2 h3 hl h4]
      intro p hp
      rcases List.mem_append.mp hp with hp1 | hp2
      · exact h p hp1
      · rw [List.mem_singleton.mp hp2]
        refine ⟨by simp, ?_, ?_⟩ <;> intro hc
        · cases hc
        · simp [if_neg h4]
  · rw [set_fg1_update reg a f st e h1 h2 h3 hl]
    exact RegInv_updateEntry h _ _

theorem Reachable_RegInv {reg : Registry} (h : Reachable reg) : RegInv reg := by
  induction h with
  | init => intro p hp; cases hp
  | speed r a d sp _ ih => exact RegInv_set_speed r a d sp ih
  | fg1 r a f st _ ih => exact RegInv_set_fg1 r a f st ih

/-! ## Scheduler tick lemmas -/

theorem send_packet_ok (e : ByteList) (h : e.length ≤ 5) :
    _send_packet e = .ok (packetWords e) := by
  unfold _send_packet
  rw [if_neg (by omega)]

theorem packetWords_length (e : ByteList) : (packetWords e).length = e.length + 2 := by
  simp [packetWords]

theorem nxt_packet_empty (s : DCCState) (h : s.packet_list = []) :
    _nxt_packet s = .ok (packetWords IDLE_PACKET, s) := by
  unfold _nxt_packet
  rw [h]
  simp [send_packet_ok IDLE_PACKET (by decide)]

theorem nxt_packet_cons (s : DCCState) (k : Key) (irest : List Key) (e : ByteList)
    (hne : s.packet_list.length ≠ 0) (hit : s.packet_iter = k :: irest)
    (hl : lookup s.packet_list k = some e) (hlen : e.length ≤ 5) :
    _nxt_packet s = .ok (packetWords e, ⟨s.packet_list, irest⟩) := by
  unfold _nxt_packet
  simp only [if_neg hne, hit, hl, send_packet_ok e hlen]

theorem nxt_packet_renew (s : DCCState) (q : Key × ByteList) (rest : Registry)
    (hpl : s.packet_list = q :: rest) (hit : s.packet_iter = [])
    (hlen : q.2.length ≤ 5) :
    _nxt_packet s = .ok (packetWords q.2, ⟨s.packet_list, rest.map Prod.fst⟩) := by
  have hne : s.packet_list.length ≠ 0 := by rw [hpl]; simp
  have hl : lookup (q :: rest) q.1 = some q.2 := by rw [lookup_cons, if_pos rfl]
  unfold _nxt_packet
  simp only [if_neg hne, hit, hpl, List.map_cons, hl, send_packet_ok q.2 hlen]
  simp

theorem nxt_packet_ok (s : DCCState) (hinv : RegInv s.packet_list)
    (hiter : ∀ k ∈ s.packet_iter, (lookup s.packet_list k).isSome) :
    ∃ ws s2, _nxt_packet s = .ok (ws, s2) ∧ 4 ≤ ws.length ∧ ws.length ≤ 6 ∧
      s2.packet_list = s.packet_list := by
  rcases hpl : s.packet_list with _ | ⟨q, rest⟩
  · exact ⟨packetWords IDLE_PACKET, s, nxt_packet_empty s hpl, by decide, by decide, hpl⟩
  · have hne : s.packet_list.length ≠ 0 := by rw [hpl]; simp
    rcases hit : s.packet_iter with _ | ⟨k, irest⟩
    · have hOK : EntryOK q := by
        apply hinv
        rw [hpl]
        exact List.mem_cons_self q rest
      have hb := EntryOK_bounds hOK
      have h5 : q.2.length ≤ 5 := by omega
      refine ⟨packetWords q.2, ⟨s.packet_list, rest.map Prod.fst⟩,
        nxt_packet_renew s q rest hpl hit h5, ?_, ?_, hpl⟩
      · rw [packetWords_length]; omega
      · rw [packetWords_length]; omega
    · have hks : (lookup s.packet_list k).isSome := by
        apply hiter
        rw [hit]
        exact List.mem_cons_self k irest
      rcases Option.isSome_iff_exists.mp hks with ⟨e, he⟩
      have hOK : EntryOK (k, e) := hinv (k, e) (lookup_mem he)
      have hb1 : 2 ≤ e.length := (EntryOK_bounds hOK).1
      have hb2 : e.length ≤ 4 := (EntryOK_bounds hOK).2
      have h5 : e.length ≤ 5 := by omega
      refine ⟨packetWords e, ⟨s.packet_list, irest⟩,
        nxt_packet_cons s k irest e hne hit he h5, ?_, ?_, hpl⟩
      · rw [packetWords_length]; omega
      · rw [packetWords_length]; omega

theorem runTicks_pass (reg : Registry) (hne : reg.length ≠ 0) :
    ∀ ks : List Key,
      (∀ k ∈ ks, ∃ e, lookup reg k = some e ∧ e.length ≤ 5) →
      runTicks ks.length ⟨reg, ks⟩ =
        .ok (ks.map (fun k => packetWords ((lookup reg k).getD [])), ⟨reg, []⟩) := by
  intro ks
  induction ks with
  | nil => intro _; rfl
  | cons k rest ih =>
    intro hks
    rcases hks k (List.mem_cons_self k rest) with ⟨e, he, hlen⟩
    have hstep := nxt_packet_cons ⟨reg, k :: rest⟩ k rest e hne rfl he hlen
    have hih := ih (fun k2 hk2 => hks k2 (List.mem_cons_of_mem k hk2))
    simp only [List.length_cons, runTicks, hstep, hih, List.map_cons, he, Option.getD_some]

theorem map_lookup_eq (reg : Registry) (hnd : (reg.map Prod.fst).Nodup) :
    (reg.map Prod.fst).map (fun k => packetWords ((lookup reg k).getD [])) =
      reg.map (fun p => packetWords p.2) := by
  rw [List.map_map]
  apply List.map_congr_left
  intro p hp
  simp [lookup_of_mem_nodup hnd hp]

/-! ## Small helpers about `setLast` -/

theorem setLast_dropLast (l : ByteList) (v : Nat) :
    (setLast l v).dropLast = l.dropLast := List.dropLast_concat

theorem setLast_getLastD (l : ByteList) (v d : Nat) :
    (setLast l v).getLastD d = v := by
  simp [setLast]

/-! ## The claims -/

/-- C1: after `set_speed(3, forward, 50)` on an otherwise empty registry,
one scheduler tick enqueues exactly the words preamble, `0x03`, `0x3F`,
`0xB2`, `0x8E ||| marker`; the data bytes (words without the top
preamble/padding bit) are `[0x03, 0x3F, 0xB2, 0x8E]` with
`0xB2 = 0x80 ||| 50` and `0x8E = 0x03 ^^^ 0x3F ^^^ 0xB2`, and the
final-byte marker bit is set on the `0x8E` word and on no other word. -/
theorem spec_c1 :
    _nxt_packet (power_on (set_speed [] 3 FWD 50).2) =
      .ok ([_DCC_PREAMBLE, 0x03, 0x3f, 0xb2, 0x4000008e],
        ⟨[((CmdClass.S, 3), [0x03, 0x3f, 0xb2])], []⟩) ∧
    (0xb2 : Nat) = 0x80 ||| 50 ∧
    (0x8e : Nat) = 0x03 ^^^ 0x3f ^^^ 0xb2 ∧
    (([_DCC_PREAMBLE, 0x03, 0x3f, 0xb2, 0x4000008e] : List Nat).filter
        (fun w => w &&& 0x80000000 == 0)).map (fun w => w &&& 0xff) =
      [0x03, 0x3f, 0xb2, 0x8e] ∧
    ([_DCC_PREAMBLE, 0x03, 0x3f, 0xb2, 0x4000008e] : List Nat).filter
        (fun w => w &&& _DCC_LAST_BYTE != 0) = [0x4000008e] :=
  ⟨rfl, rfl, rfl, rfl, rfl⟩

/-- C3: for every payload of at most 5 bytes, `_send_packet` writes the
payload words followed by one final word whose low 8 bits are the XOR of
all payload bytes and which carries the final-byte marker; no other
written word carries the marker. -/
theorem spec_c3 (byte_list : ByteList) (h5 : byte_list.length ≤ 5)
    (hb : ∀ b ∈ byte_list, b < 256) :
    _send_packet byte_list =
      .ok (_DCC_PREAMBLE :: byte_list ++ [xorFold byte_list ||| _DCC_LAST_BYTE]) ∧
    (xorFold byte_list ||| _DCC_LAST_BYTE) &&& 0xff = xorFold byte_list ∧
    (xorFold byte_list ||| _DCC_LAST_BYTE) &&& _DCC_LAST_BYTE ≠ 0 ∧
    ∀ w ∈ _DCC_PREAMBLE :: byte_list, w &&& _DCC_LAST_BYTE = 0 := by
  have hxf : xorFold byte_list < 256 := xorFold_lt byte_list hb
  have hm := or_marker_facts (xorFold byte_list) hxf
  refine ⟨send_packet_ok byte_list h5, hm.1, hm.2.1, ?_⟩
  intro w hw
  rcases List.mem_cons.mp hw with rfl | hw2
  · decide
  · exact (or_marker_facts w (hb w hw2)).2.2

/-- Witness for C3 at the concrete payload `[0x12, 0x34]`. -/
theorem spec_c3_witness :
    _send_packet [0x12, 0x34] =
      .ok (_DCC_PREAMBLE :: [0x12, 0x34] ++ [xorFold [0x12, 0x34] ||| _DCC_LAST_BYTE]) ∧
    (xorFold [0x12, 0x34] ||| _DCC_LAST_BYTE) &&& 0xff = xorFold [0x12, 0x34] ∧
    (xorFold [0x12, 0x34] ||| _DCC_LAST_BYTE) &&& _DCC_LAST_BYTE ≠ 0 ∧
    ∀ w ∈ _DCC_PREAMBLE :: [0x12, 0x34], w &&& _DCC_LAST_BYTE = 0 :=
  spec_c3 [0x12, 0x34] (by decide) (by decide)

/-- C5 counterexample: from the reachable registry holding the function
group 1 entry `[0x03, 0x90]` for address 3 (function 0 already set),
calling `set_fg1(3, 0, 1)` and then `set_fg1(3, 0, 0)` leaves instruction
byte `0x80`, not the prior value `0x90`: the byte is not restored. -/
theorem spec_c5_cex :
    lookup (set_fg1 [] 3 0 1).2 (CmdClass.F, 3) = some [0x03, 0x90] ∧
    lookup (set_fg1 (set_fg1 (set_fg1 [] 3 0 1).2 3 0 1).2 3 0 0).2 (CmdClass.F, 3) =
      some [0x03, 0x80] ∧
    ([0x03, 0x90] : ByteList).getLastD 0 ≠ ([0x03, 0x80] : ByteList).getLastD 0 := by
  decide

/-- C5 (amended): for every registry with a function group 1 entry for a
valid address and function index `f`, `set_fg1(a, f, 1)` followed by
`set_fg1(a, f, 0)` leaves the instruction byte equal to its prior value
with the bit of `f`'s mask cleared; every bit outside the mask is
unaffected, and the byte is restored exactly when `f`'s bit was clear
before the set. -/
theorem spec_c5_amended (reg : Registry) (a f : Int) (e : ByteList)
    (ha1 : 1 ≤ a) (ha2 : a ≤ 0x27ff) (hf1 : 0 ≤ f) (hf2 : f ≤ 4)
    (he : lookup reg (CmdClass.F, a) = some e) :
    ∃ e2, lookup (set_fg1 (set_fg1 reg a f 1).2 a f 0).2 (CmdClass.F, a) = some e2 ∧
      e2.dropLast = e.dropLast ∧
      e2.getLastD 0 = andNot (e.getLastD 0) (_F_NUM_ENCODE.getD f.toNat 0) ∧
      (∀ i, (_F_NUM_ENCODE.getD f.toNat 0).testBit i = false →
        (andNot (e.getLastD 0) (_F_NUM_ENCODE.getD f.toNat 0)).testBit i =
          (e.getLastD 0).testBit i) ∧
      (e.getLastD 0 &&& _F_NUM_ENCODE.getD f.toNat 0 = 0 →
        andNot (e.getLastD 0) (_F_NUM_ENCODE.getD f.toNat 0) = e.getLastD 0) := by
  have h1 : ¬(a < 1 ∨ a > _MAX_LONG_ADDR) := by
    simp only [_MAX_LONG_ADDR]
    omega
  have h2 : ¬(f < 0 ∨ f > 4) := by omega
  have hred1 := set_fg1_update reg a f 1 e h1 h2 (Or.inr rfl) he
  have hl1 : lookup (set_fg1 reg a f 1).2 (CmdClass.F, a) =
      some (setLast e (e.getLastD 0 ||| _F_NUM_ENCODE.getD f.toNat 0)) := by
    rw [hred1]
    have h := lookup_updateEntry_self he (fun e2 =>
      setLast e2 (if (1 : Int) = 1 then e.getLastD 0 ||| _F_NUM_ENCODE.getD f.toNat 0
        else andNot (e.getLastD 0) (_F_NUM_ENCODE.getD f.toNat 0)))
    simpa using h
  have hred2 := set_fg1_update (set_fg1 reg a f 1).2 a f 0
    (setLast e (e.getLastD 0 ||| _F_NUM_ENCODE.getD f.toNat 0)) h1 h2 (Or.inl rfl) hl1
  have hl2 : lookup (set_fg1 (set_fg1 reg a f 1).2 a f 0).2 (CmdClass.F, a) =
      some (setLast (setLast e (e.getLastD 0 ||| _F_NUM_ENCODE.getD f.toNat 0))
        (andNot ((setLast e (e.getLastD 0 ||| _F_NUM_ENCODE.getD f.toNat 0)).getLastD 0)
          (_F_NUM_ENCODE.getD f.toNat 0))) := by
    rw [hred2]
    have h := lookup_updateEntry_self hl1 (fun e2 =>
      setLast e2 (if (0 : Int) = 1 then
        (setLast e (e.getLastD 0 ||| _F_NUM_ENCODE.getD f.toNat 0)).getLastD 0 |||
          _F_NUM_ENCODE.getD f.toNat 0
        else andNot ((setLast e (e.getLastD 0 ||| _F_NUM_ENCODE.getD f.toNat 0)).getLastD 0)
          (_F_NUM_ENCODE.getD f.toNat 0)))
    simpa using h
  refine ⟨_, hl2, ?_, ?_, ?_, ?_⟩
  · rw [setLast_dropLast, setLast_dropLast]
  · rw [setLast_getLastD, setLast_getLastD, andNot_lor_self]
  · intro i hi
    rw [testBit_andNot, hi]
    simp
  · intro hz
    exact andNot_eq_self _ _ hz

/-- Witness for the amended C5 at the concrete registry holding
`[0x03, 0x84]` for address 3 (function 0's bit `0x10` clear). -/
theorem spec_c5_amended_witness :
    ∃ e2, lookup (set_fg1 (set_fg1 [((CmdClass.F, 3), [0x03, 0x84])] 3 0 1).2 3 0 0).2
        (CmdClass.F, 3) = some e2 ∧
      e2.dropLast = ([0x03, 0x84] : ByteList).dropLast ∧
      e2.getLastD 0 = andNot (([0x03, 0x84] : ByteList).getLastD 0)
        (_F_NUM_ENCODE.getD (0 : Int).toNat 0) ∧
      (∀ i, (_F_NUM_ENCODE.getD (0 : Int).toNat 0).testBit i = false →
        (andNot (([0x03, 0x84] : ByteList).getLastD 0)
          (_F_NUM_ENCODE.getD (0 : Int).toNat 0)).testBit i =
          (([0x03, 0x84] : ByteList).getLastD 0).testBit i) ∧
      (([0x03, 0x84] : ByteList).getLastD 0 &&& _F_NUM_ENCODE.getD (0 : Int).toNat 0 = 0 →
        andNot (([0x03, 0x84] : ByteList).getLastD 0)
          (_F_NUM_ENCODE.getD (0 : Int).toNat 0) = ([0x03, 0x84] : ByteList).getLastD 0) :=
  spec_c5_amended [((CmdClass.F, 3), [0x03, 0x84])] 3 0 [0x03, 0x84]
    (by decide) (by decide) (by decide) (by decide) (by decide)

/-- C7 counterexample: a 6-byte payload makes `_send_packet` raise the
fatal `RuntimeError('DCC command too long')` (modelled as `Except.error`)
instead of returning a recoverable failure indicator; it never produces an
`ok` result, so nothing reaches the engine queue. -/
theorem spec_c7_cex :
    _send_packet [0, 0, 0, 0, 0, 0] = .error "DCC command too long" ∧
    ∀ ws, _send_packet [0, 0, 0, 0, 0, 0] ≠ .ok ws := by
  refine ⟨rfl, ?_⟩
  intro ws h
  simp [_send_packet] at h

/-- C7 (amended): a payload longer than 5 bytes makes `_send_packet` fail
before any word is produced for the engine queue and with no state
change, but by raising the fatal `RuntimeError('DCC command too long')`
(a programming/configuration error), not by returning a recoverable
failure indicator. -/
theorem spec_c7_amended (byte_list : ByteList) (h : byte_list.length > 5) :
    _send_packet byte_list = .error "DCC command too long" := by
  unfold _send_packet
  rw [if_pos h]

/-- Witness for the amended C7 at a concrete 6-byte payload. -/
theorem spec_c7_amended_witness :
    _send_packet [1, 2, 3, 4, 5, 6] = .error "DCC command too long" :=
  spec_c7_amended [1, 2, 3, 4, 5, 6] (by decide)

/-- C9: whenever the registry is empty, a scheduler tick sends exactly the
idle packet: preamble, `0xFF`, `0x00`, and the checksum word `0xFF` with
the final-byte marker. -/
theorem spec_c9 (s : DCCState) (h : s.packet_list = []) :
    _nxt_packet s = .ok (packetWords IDLE_PACKET, s) ∧
    packetWords IDLE_PACKET = [_DCC_PREAMBLE, 0xff, 0x00, 0xff ||| _DCC_LAST_BYTE] ∧
    xorFold IDLE_PACKET = 0xff :=
  ⟨nxt_packet_empty s h, by decide, by decide⟩

/-- Witness for C9 at the concrete empty state. -/
theorem spec_c9_witness :
    _nxt_packet ⟨[], []⟩ = .ok (packetWords IDLE_PACKET, (⟨[], []⟩ : DCCState)) ∧
    packetWords IDLE_PACKET = [_DCC_PREAMBLE, 0xff, 0x00, 0xff ||| _DCC_LAST_BYTE] ∧
    xorFold IDLE_PACKET = 0xff :=
  spec_c9 ⟨[], []⟩ rfl

/-- C2: for every valid address, the address framing of a freshly
inserted registry entry (by `set_speed` or `set_fg1`) is one leading byte
equal to the address for addresses 1..127, and the two leading bytes
`0xC0 ||| (address >>> 8)`, `address &&& 0xFF` for addresses
128..0x27FF. -/
theorem spec_c2 (reg : Registry) (a d sp f st : Int)
    (ha1 : 1 ≤ a) (ha2 : a ≤ 0x27ff)
    (hd : d = FWD ∨ d = REV) (hsp1 : 0 ≤ sp) (hsp2 : sp ≤ 127)
    (hf1 : 0 ≤ f) (hf2 : f ≤ 4) (hst : st = 0 ∨ st = 1)
    (hS : lookup reg (CmdClass.S, a) = none) (hF : lookup reg (CmdClass.F, a) = none) :
    ∃ eS eF,
      lookup (set_speed reg a d sp).2 (CmdClass.S, a) = some eS ∧
      lookup (set_fg1 reg a f st).2 (CmdClass.F, a) = some eF ∧
      (a ≤ 127 →
        eS.take 1 = [a.toNat] ∧ eS.length = 3 ∧
        eF.take 1 = [a.toNat] ∧ eF.length = 2) ∧
      (128 ≤ a →
        eS.take 2 = [0xc0 ||| (a.toNat >>> 8), a.toNat &&& 0xff] ∧ eS.length = 4 ∧
        eF.take 2 = [0xc0 ||| (a.toNat >>> 8), a.toNat &&& 0xff] ∧ eF.length = 3) := by
  have h1 : ¬(a < 1 ∨ a > _MAX_LONG_ADDR) := by
    simp only [_MAX_LONG_ADDR]
    omega
  have h2 : ¬(sp < 0 ∨ sp > 127) := by omega
  have h2f : ¬(f < 0 ∨ f > 4) := by omega
  by_cases h4 : a < _MIN_LONG_ADDR
  · refine ⟨[a.toNat, _SPD_128, (if d = FWD then 0x80 else 0) ||| (sp.toNat &&& 0x7f)],
      [a.toNat, _F_GROUP_1 ||| (if st = 1 then _F_NUM_ENCODE.getD f.toNat 0 else 0)],
      ?_, ?_, ?_, ?_⟩
    · rw [set_speed_insert_short reg a d sp h1 h2 hd hS h4]
      exact lookup_append_of_none hS _
    · rw [set_fg1_insert_short reg a f st h1 h2f hst hF h4]
      exact lookup_append_of_none hF _
    · intro _
      exact ⟨rfl, rfl, rfl, rfl⟩
    · intro h128
      exfalso
      simp only [_MIN_LONG_ADDR] at h4
      omega
  · refine ⟨[(0xc000 ||| a.toNat) >>> 8, a.toNat &&& 0xff, _SPD_128,
        (if d = FWD then 0x80 else 0) ||| (sp.toNat &&& 0x7f)],
      [(0xc000 ||| a.toNat) >>> 8, a.toNat &&& 0xff,
        _F_GROUP_1 ||| (if st = 1 then _F_NUM_ENCODE.getD f.toNat 0 else 0)],
      ?_, ?_, ?_, ?_⟩
    · rw [set_speed_insert_long reg a d sp h1 h2 hd hS h4]
      exact lookup_append_of_none hS _
    · rw [set_fg1_insert_long reg a f st h1 h2f hst hF h4]
      exact lookup_append_of_none hF _
    · intro h127
      exfalso
      simp only [_MIN_LONG_ADDR] at h4
      omega
    · intro _
      rw [msb_address_eq]
      exact ⟨rfl, rfl, rfl, rfl⟩

/-- Witness for C2 at address 3 (short) inserted into the empty registry. -/
theorem spec_c2_witness :
    ∃ eS eF,
      lookup (set_speed [] 3 1 50).2 (CmdClass.S, 3) = some eS ∧
      lookup (set_fg1 [] 3 0 1).2 (CmdClass.F, 3) = some eF ∧
      ((3 : Int) ≤ 127 →
        eS.take 1 = [(3 : Int).toNat] ∧ eS.length = 3 ∧
        eF.take 1 = [(3 : Int).toNat] ∧ eF.length = 2) ∧
      ((128 : Int) ≤ 3 →
        eS.take 2 = [0xc0 ||| ((3 : Int).toNat >>> 8), (3 : Int).toNat &&& 0xff] ∧
          eS.length = 4 ∧
        eF.take 2 = [0xc0 ||| ((3 : Int).toNat >>> 8), (3 : Int).toNat &&& 0xff] ∧
          eF.length = 3) :=
  spec_c2 [] 3 1 50 0 1 (by decide) (by decide) (Or.inl rfl) (by decide) (by decide)
    (by decide) (by decide) (Or.inr rfl) rfl rfl

/-- C4: a second `set_speed` for an address that already has a
speed/direction entry returns `True` and replaces only the entry's final
instruction byte: the leading bytes and the length are unchanged, every
other key's entry is untouched, and the key still has exactly one entry. -/
theorem spec_c4 (reg : Registry) (a d sp : Int) (e : ByteList)
    (hnd : (reg.map Prod.fst).Nodup)
    (ha1 : 1 ≤ a) (ha2 : a ≤ 0x27ff)
    (hd : d = FWD ∨ d = REV) (hsp1 : 0 ≤ sp) (hsp2 : sp ≤ 127)
    (he : lookup reg (CmdClass.S, a) = some e) (hene : e ≠ []) :
    (set_speed reg a d sp).1 = true ∧
    lookup (set_speed reg a d sp).2 (CmdClass.S, a) =
      some (setLast e ((if d = FWD then 0x80 else 0) ||| (sp.toNat &&& 0x7f))) ∧
    (setLast e ((if d = FWD then 0x80 else 0) ||| (sp.toNat &&& 0x7f))).dropLast =
      e.dropLast ∧
    (setLast e ((if d = FWD then 0x80 else 0) ||| (sp.toNat &&& 0x7f))).length =
      e.length ∧
    (∀ k2 : Key, k2 ≠ (CmdClass.S, a) →
      lookup (set_speed reg a d sp).2 k2 = lookup reg k2) ∧
    ((set_speed reg a d sp).2.map Prod.fst).countP
      (fun x => decide (x = (CmdClass.S, a))) = 1 := by
  have h1 : ¬(a < 1 ∨ a > _MAX_LONG_ADDR) := by
    simp only [_MAX_LONG_ADDR]
    omega
  have h2 : ¬(sp < 0 ∨ sp > 127) := by omega
  have hred := set_speed_update reg a d sp e h1 h2 hd he
  rw [hred]
  dsimp only
  refine ⟨rfl, ?_, ?_, ?_, ?_, ?_⟩
  · exact lookup_updateEntry_self he _
  · exact List.dropLast_concat
  · exact setLast_length e _ hene
  · intro k2 hk2
    exact lookup_updateEntry_ne hk2 _
  · rw [updateEntry_keys]
    exact countP_eq_one_of_nodup hnd (mem_keys_of_lookup he)

/-- Witness for C4: a second `set_speed` call on the registry produced by
`set_speed(3, forward, 50)`. -/
theorem spec_c4_witness :
    (set_speed [((CmdClass.S, 3), [0x03, 0x3f, 0xb2])] 3 1 20).1 = true ∧
    lookup (set_speed [((CmdClass.S, 3), [0x03, 0x3f, 0xb2])] 3 1 20).2 (CmdClass.S, 3) =
      some (setLast [0x03, 0x3f, 0xb2]
        ((if (1 : Int) = FWD then 0x80 else 0) ||| ((20 : Int).toNat &&& 0x7f))) ∧
    (setLast [0x03, 0x3f, 0xb2]
        ((if (1 : Int) = FWD then 0x80 else 0) ||| ((20 : Int).toNat &&& 0x7f))).dropLast =
      ([0x03, 0x3f, 0xb2] : ByteList).dropLast ∧
    (setLast [0x03, 0x3f, 0xb2]
        ((if (1 : Int) = FWD then 0x80 else 0) ||| ((20 : Int).toNat &&& 0x7f))).length =
      ([0x03, 0x3f, 0xb2] : ByteList).length ∧
    (∀ k2 : Key, k2 ≠ (CmdClass.S, 3) →
      lookup (set_speed [((CmdClass.S, 3), [0x03, 0x3f, 0xb2])] 3 1 20).2 k2 =
        lookup [((CmdClass.S, 3), [0x03, 0x3f, 0xb2])] k2) ∧
    ((set_speed [((CmdClass.S, 3), [0x03, 0x3f, 0xb2])] 3 1 20).2.map Prod.fst).countP
      (fun x => decide (x = (CmdClass.S, 3))) = 1 :=
  spec_c4 [((CmdClass.S, 3), [0x03, 0x3f, 0xb2])] 3 1 20 [0x03, 0x3f, 0xb2]
    (by decide) (by decide) (by decide) (Or.inl rfl) (by decide) (by decide) rfl
    (by decide)

/-- C8: with a non-empty registry of distinct keys and no mutation after
power-on, `N` consecutive ticks (for `N` the number of keys) send each
key's entry exactly once, in the registry's stable insertion order,
ending with an exhausted iterator; the next tick wraps back to the first
key. -/
theorem spec_c8 (reg : Registry) (hne : reg ≠ [])
    (hnd : (reg.map Prod.fst).Nodup)
    (hlen : ∀ p ∈ reg, p.2.length ≤ 5) :
    runTicks reg.length (power_on reg) =
      .ok (reg.map (fun p => packetWords p.2), ⟨reg, []⟩) ∧
    ∃ q rest, reg = q :: rest ∧
      _nxt_packet ⟨reg, []⟩ = .ok (packetWords q.2, ⟨reg, rest.map Prod.fst⟩) := by
  constructor
  · have hks : ∀ k ∈ reg.map Prod.fst, ∃ e, lookup reg k = some e ∧ e.length ≤ 5 := by
      intro k hk
      rcases List.mem_map.mp hk with ⟨p, hp, rfl⟩
      exact ⟨p.2, lookup_of_mem_nodup hnd hp, hlen p hp⟩
    have hlnz : reg.length ≠ 0 := fun h0 => hne (List.length_eq_zero.mp h0)
    have h := runTicks_pass reg hlnz (reg.map Prod.fst) hks
    rw [List.length_map, map_lookup_eq reg hnd] at h
    exact h
  · rcases hsh : reg with _ | ⟨q, rest⟩
    · exact absurd hsh hne
    · refine ⟨q, rest, rfl, ?_⟩
      have hq5 : q.2.length ≤ 5 := by
        apply hlen
        rw [hsh]
        exact List.mem_cons_self q rest
      exact nxt_packet_renew ⟨q :: rest, []⟩ q rest rfl rfl hq5

/-- Witness for C8 at a concrete two-entry registry. -/
theorem spec_c8_witness :
    runTicks ([((CmdClass.S, 3), [0x03, 0x3f, 0xb2]),
        ((CmdClass.F, 4), [0x04, 0x90])] : Registry).length
        (power_on [((CmdClass.S, 3), [0x03, 0x3f, 0xb2]), ((CmdClass.F, 4), [0x04, 0x90])]) =
      .ok (([((CmdClass.S, 3), [0x03, 0x3f, 0xb2]),
          ((CmdClass.F, 4), [0x04, 0x90])] : Registry).map (fun p => packetWords p.2),
        ⟨[((CmdClass.S, 3), [0x03, 0x3f, 0xb2]), ((CmdClass.F, 4), [0x04, 0x90])], []⟩) ∧
    ∃ q rest,
      ([((CmdClass.S, 3), [0x03, 0x3f, 0xb2]), ((CmdClass.F, 4), [0x04, 0x90])] : Registry) =
        q :: rest ∧
      _nxt_packet ⟨[((CmdClass.S, 3), [0x03, 0x3f, 0xb2]), ((CmdClass.F, 4), [0x04, 0x90])], []⟩ =
        .ok (packetWords q.2,
          ⟨[((CmdClass.S, 3), [0x03, 0x3f, 0xb2]), ((CmdClass.F, 4), [0x04, 0x90])],
            rest.map Prod.fst⟩) :=
  spec_c8 [((CmdClass.S, 3), [0x03, 0x3f, 0xb2]), ((CmdClass.F, 4), [0x04, 0x90])]
    (by decide) (by decide) (by decide)

/-- C10: every reachable registry entry has at most 4 bytes (3/4 for
speed entries with short/long address, 2/3 for function group 1 entries),
so a scheduler tick from a reachable registry never reaches the fatal
`'DCC command too long'` branch: it always succeeds and enqueues between
4 and 6 words (within the 8-word FIFO). -/
theorem spec_c10 (reg : Registry) (hreach : Reachable reg) :
    (∀ p ∈ reg, p.2.length ≤ 4 ∧
      (p.1.1 = CmdClass.S → p.2.length = if p.1.2 < 128 then 3 else 4) ∧
      (p.1.1 = CmdClass.F → p.2.length = if p.1.2 < 128 then 2 else 3)) ∧
    ∀ s : DCCState, s.packet_list = reg →
      (∀ k ∈ s.packet_iter, (lookup reg k).isSome) →
      ∃ ws s2, _nxt_packet s = .ok (ws, s2) ∧ 4 ≤ ws.length ∧ ws.length ≤ 6 := by
  have hinv := Reachable_RegInv hreach
  constructor
  · intro p hp
    have hOK := hinv p hp
    refine ⟨(EntryOK_bounds hOK).2, ?_, ?_⟩
    · intro hc
      have h := hOK.2.1 hc
      simpa [_MIN_LONG_ADDR] using h
    · intro hc
      have h := hOK.2.2 hc
      simpa [_MIN_LONG_ADDR] using h
  · intro s hs hiter
    have hinv2 : RegInv s.packet_list := by rw [hs]; exact hinv
    have hiter2 : ∀ k ∈ s.packet_iter, (lookup s.packet_list k).isSome := by
      rw [hs]; exact hiter
    rcases nxt_packet_ok s hinv2 hiter2 with ⟨ws, s2, hok, hlo, hhi, _⟩
    exact ⟨ws, s2, hok, hlo, hhi⟩

/-- Witness for C10 at the reachable registry `set_speed(3, forward, 50)`
applied to the empty registry. -/
theorem spec_c10_witness :
    (∀ p ∈ (set_speed [] 3 1 50).2, p.2.length ≤ 4 ∧
      (p.1.1 = CmdClass.S → p.2.length = if p.1.2 < 128 then 3 else 4) ∧
      (p.1.1 = CmdClass.F → p.2.length = if p.1.2 < 128 then 2 else 3)) ∧
    ∀ s : DCCState, s.packet_list = (set_speed [] 3 1 50).2 →
      (∀ k ∈ s.packet_iter, (lookup (set_speed [] 3 1 50).2 k).isSome) →
      ∃ ws s2, _nxt_packet s = .ok (ws, s2) ∧ 4 ≤ ws.length ∧ ws.length ≤ 6 :=
  spec_c10 (set_speed [] 3 1 50).2 (Reachable.speed [] 3 1 50 Reachable.init)
